import Mathlib

/-!
Verification of the link-context-reader plugin (`src/main.py`).

Python strings are modelled as `List Char` (one entry per Unicode code
point, matching Python's `len`/slicing semantics).  Each definition below
is a direct translation of the corresponding function of `main.py`;
network-bound operations (aiohttp requests, BeautifulSoup parsing of
fetched documents, Playwright rendering) are modelled as oracle fields of
an environment structure, with `Except Unit` results whose `error` case
models a raised exception, mirroring the `try`/`except` structure of the
code.
-/

/-- Python strings as lists of code points. -/
abbrev Str := List Char

/-- Shorthand turning a Lean string literal into the `Str` model. -/
def str (s : String) : Str := s.data

/-- Python's substring test `needle in hay` for strings. -/
def pyIn (needle : Str) : Str → Bool
  | [] => needle.isEmpty
  | c :: t => needle.isPrefixOf (c :: t) || pyIn needle t

/-- Whitespace as stripped by Python's `str.strip()` (ASCII whitespace;
the rarely-relevant non-ASCII Unicode spaces are not modelled). -/
def pyWs (c : Char) : Bool :=
  c = ' ' || c = '\t' || c = '\n' || c = '\r' || c = '\x0b' || c = '\x0c'

/-- Python's `str.strip()`: remove leading and trailing whitespace. -/
def pyStrip (s : Str) : Str :=
  ((s.dropWhile pyWs).reverse.dropWhile pyWs).reverse

/-- Python's `str.split(sep)` for a one-character separator `a`
(as used with `'\n'` and `' '` in `main.py`): all occurrences split,
empty pieces kept. -/
def splitCh (a : Char) : Str → List Str
  | [] => [[]]
  | c :: rest =>
    if c = a then [] :: splitCh a rest
    else
      match splitCh a rest with
      | [] => [[c]]
      | h :: t => (c :: h) :: t

/-- `lyrics.replace('\\n', '\n')` of `_filter_lyrics`: each literal
backslash-n pair becomes a newline (left-to-right, non-overlapping). -/
def replEscNl : Str → Str
  | '\\' :: 'n' :: rest => '\n' :: replEscNl rest
  | c :: rest => c :: replEscNl rest
  | [] => []

/-- `.replace('\\r', '')` of `_filter_lyrics`: each literal
backslash-r pair is deleted (left-to-right, non-overlapping). -/
def replEscCr : Str → Str
  | '\\' :: 'r' :: rest => replEscCr rest
  | c :: rest => c :: replEscCr rest
  | [] => []

/-- Length of a match of `\d+:\d+\.\d+]` at the head of `l` (the part of
the timestamp pattern `\[\d+:\d+\.\d+\]` after the opening bracket),
`none` when the pattern does not match here.  Maximal digit runs mirror
the greedy `\d+` of the regex. -/
def tsBodyLen (l : Str) : Option Nat :=
  let d1 := l.takeWhile Char.isDigit
  if d1.isEmpty then none else
  match l.drop d1.length with
  | ':' :: r2 =>
    let d2 := r2.takeWhile Char.isDigit
    if d2.isEmpty then none else
    match r2.drop d2.length with
    | '.' :: r3 =>
      let d3 := r3.takeWhile Char.isDigit
      if d3.isEmpty then none else
      match r3.drop d3.length with
      | ']' :: _ => some (d1.length + 1 + d2.length + 1 + d3.length + 1)
      | _ => none
    | _ => none
  | _ => none

/-- Fueled scanner for `re.sub(r'\[\d+:\d+\.\d+\]', '', line)`: at each
position, a timestamp tag starting there is deleted and scanning resumes
after it, otherwise the character is kept.  `fuel` only serves to make
the recursion structural; it is always called with `fuel = s.length`,
which suffices since every step consumes at least one character. -/
def stripTsAux : Nat → Str → Str
  | _, [] => []
  | 0, s => s
  | fuel + 1, c :: rest =>
    if c = '[' then
      match tsBodyLen rest with
      | some n => stripTsAux fuel (rest.drop n)
      | none => '[' :: stripTsAux fuel rest
    else c :: stripTsAux fuel rest

/-- `re.sub(r'\[\d+:\d+\.\d+\]', '', line)` of `_filter_lyrics`. -/
def stripTs (s : Str) : Str := stripTsAux s.length s

/-- `_contains_chinese`: some character lies in U+4E00..U+9FFF. -/
def containsChinese (text : Str) : Bool :=
  text.any (fun c => decide (0x4e00 ≤ c.toNat) && decide (c.toNat ≤ 0x9fff))

/-- The lyric-marker keywords of `_filter_lyrics`. -/
def lyricKeywords : List Str := [str "歌词", str "Lyric", str "LRC", str "文本"]

/-- The metadata-line rule of `_filter_lyrics`: the line is dropped when
`((':' in line or '：' in line) and len(line) < 35) or ' - ' in line`
holds and no lyric-marker keyword occurs in the line. -/
def metaDrop (line : Str) : Bool :=
  ((pyIn (str ":") line || pyIn (str "：") line) && decide (line.length < 35)
      || pyIn (str " - ") line)
    && !(lyricKeywords.any (fun kw => pyIn kw line))

/-- The per-line body of the `for line in lines` loop of
`_filter_lyrics`: the list of lines contributed to `filtered_lines`
(empty when the line is dropped, several when the CJK space-splitting
rule fires). -/
def processLine (raw : Str) : List Str :=
  let l1 := pyStrip raw
  if l1.isEmpty then [] else
  let line := pyStrip (stripTs l1)
  if line.isEmpty then [] else
  if (line.head? == some '[') && (line.getLast? == some ']') then [] else
  if metaDrop line then [] else
  if pyIn (str " ") line && containsChinese line then
    let parts := ((splitCh ' ' line).map pyStrip).filter (fun p => !p.isEmpty)
    if parts.all (fun p => decide (p.length < 20)) then parts else [line]
  else [line]

/-- Python's `str.isdigit()` restricted to ASCII digits (the Unicode
digit categories accepted by `isdigit` are not modelled): nonempty and
all digits. -/
def pyIsDigit (l : Str) : Bool := !l.isEmpty && l.all Char.isDigit

/-- The final pass of `_filter_lyrics`:
`len(l) > 1 and not l.isdigit()`. -/
def keepFinal (l : Str) : Bool := decide (1 < l.length) && !pyIsDigit l

/-- `_filter_lyrics` of `main.py`. -/
def filterLyrics (lyrics : Str) : Str :=
  if lyrics.isEmpty then [] else
  let s := replEscCr (replEscNl lyrics)
  let lines := splitCh '\n' s
  let filtered := (lines.map processLine).flatten
  let finals := filtered.filter keepFinal
  List.intercalate ['\n'] finals

/-- The legal/boilerplate blacklist of `_clean_text`. -/
def textBlacklist : List Str :=
  [str "沪ICP备", str "公网安备", str "经营许可证", str "版权所有",
   str "©", str "Copyright", str "下载APP", str "打开APP"]

/-- The truncation marker appended by `_clean_text`. -/
def truncMarker : Str := str "...(内容过长已截断)"

/-- The join of the per-line cleaning loop of `_clean_text`, before the
length check: lines are stripped, empty/short/blacklisted lines dropped,
the rest joined with a newline. -/
def cleanJoin (text : Str) : Str :=
  List.intercalate ['\n']
    ((splitCh '\n' text).filterMap (fun l =>
      let line := pyStrip l
      if line.isEmpty || decide (line.length < 2)
          || textBlacklist.any (fun kw => pyIn kw line) then none
      else some line))

/-- `_clean_text` of `main.py`, with the configured
`max_content_length` as an explicit parameter. -/
def cleanText (maxLength : Nat) (text : Str) : Str :=
  let result := cleanJoin text
  if decide (maxLength < result.length) then result.take maxLength ++ truncMarker
  else result

/-- The music-domain list of `_is_music_site`. -/
def musicDomains : List Str :=
  [str "music.163.com", str "163cn.tv", str "163.fm", str "y.music.163.com",
   str "y.qq.com", str "c6.y.qq.com", str "c.y.qq.com", str "u.y.qq.com", str "url.cn",
   str "kugou.com", str "t.kugou.com", str "fanxing.kugou.com",
   str "kuwo.cn", str "t.kuwo.cn",
   str "migu.cn", str "b23.tv"]

/-- `_is_music_site`: `any(domain in url for domain in music_domains)` —
a substring test of each domain against the whole URL string. -/
def isMusicSite (url : Str) : Bool :=
  musicDomains.any (fun domain => pyIn domain url)

/-- The tail of the URL after the first `://`, `none` when there is no
scheme separator (`urlparse` yields an empty netloc then). -/
def afterScheme : Str → Option Str
  | [] => none
  | c :: rest =>
    if (str "://").isPrefixOf (c :: rest) then some ((c :: rest).drop 3)
    else afterScheme rest

/-- `urlparse(url).netloc` for scheme-carrying URLs: the part after
`://` up to the first `/`, `?` or `#` (case preserved, as in Python). -/
def netloc (url : Str) : Str :=
  match afterScheme url with
  | none => []
  | some rest => rest.takeWhile (fun c => !(c = '/' || c = '?' || c = '#'))

/-- The social-platform list of `_fetch_url_content`. -/
def socialPlatforms : List Str :=
  [str "xiaohongshu.com", str "zhihu.com", str "weibo.com",
   str "bilibili.com", str "douyin.com", str "lofter.com"]

/-- The short-link domain list of `_handle_music_direct_api`. -/
def shortLinkDomains : List Str :=
  [str "163cn.tv", str "163.fm", str "url.cn", str "c6.y.qq.com",
   str "u.y.qq.com", str "t.kugou.com", str "t.kuwo.cn", str "b23.tv"]

/-- The redirect-tracking condition of `_handle_music_direct_api`:
`any(domain in url for domain in short_link_domains) or
"base/fcgi-bin/u" in url`. -/
def isShortLink (url : Str) : Bool :=
  shortLinkDomains.any (fun domain => pyIn domain url)
    || pyIn (str "base/fcgi-bin/u") url

/-- `re.search` for the patterns `lit(cls+)` used by the ID extractors
(`id=(\d+)`, `songmid=([a-zA-Z0-9]+)` …): leftmost occurrence of the
literal `lit` followed by at least one `cls` character; returns the
maximal (greedy) captured run. -/
def searchCapture (lit : Str) (cls : Char → Bool) : Str → Option Str
  | [] => none
  | c :: rest =>
    if lit.isPrefixOf (c :: rest) then
      let ds := ((c :: rest).drop lit.length).takeWhile cls
      if ds.isEmpty then searchCapture lit cls rest else some ds
    else searchCapture lit cls rest

/-- ASCII `[a-zA-Z0-9]`. -/
def isAlnumAscii (c : Char) : Bool := c.isAlpha || c.isDigit

/-- NetEase ID extraction:
`re.search(r'id=(\d+)', u) or re.search(r'song/(\d+)', u)`. -/
def neteaseId (u : Str) : Option Str :=
  (searchCapture (str "id=") Char.isDigit u).orElse
    (fun _ => searchCapture (str "song/") Char.isDigit u)

/-- QQ-music MID extraction:
`re.search(r'songmid=([a-zA-Z0-9]+)', u) or re.search(r'songDetail/([a-zA-Z0-9]+)', u)`. -/
def qqMid (u : Str) : Option Str :=
  (searchCapture (str "songmid=") isAlnumAscii u).orElse
    (fun _ => searchCapture (str "songDetail/") isAlnumAscii u)

/-- Kuwo ID extraction:
`re.search(r'mid=(\d+)', u) or re.search(r'musicId=(\d+)', u)`. -/
def kuwoId (u : Str) : Option Str :=
  (searchCapture (str "mid=") Char.isDigit u).orElse
    (fun _ => searchCapture (str "musicId=") Char.isDigit u)

/-- The NetEase result message:
`f"【网易云解析 (ID: {song_id})】\n\n{filter(lrc)}"`, with the
translated track appended when `tlyric` is truthy. -/
def neteaseMsg (songId lrc tlrc : Str) : Str :=
  str "【网易云解析 (ID: " ++ songId ++ str ")】\n\n" ++ filterLyrics lrc
    ++ (if tlrc.isEmpty then [] else str "\n\n【翻译】\n" ++ filterLyrics tlrc)

/-- The QQ-music result message. -/
def qqMsg (mid lrc : Str) : Str :=
  str "【QQ音乐解析 (MID: " ++ mid ++ str ")】\n\n" ++ filterLyrics lrc

/-- The Kuwo result message: the `lineLyric` entries joined with
newlines (no lyric filtering on this branch, as in the code). -/
def kuwoMsg (lrcLines : List Str) : Str :=
  str "【酷我音乐解析】\n\n" ++ List.intercalate ['\n'] lrcLines

/-- The fixed failure message of `_fallback_xiaojiang_search`'s
`except` clause. -/
def musicFail : Str := str "音乐链接解析失败。"

/-- The keyword-fallback success message. -/
def xiaojiangFound (kw content : Str) : Str :=
  str "【歌词解析: " ++ kw ++ str "】\n来源: 小江音乐网\n\n" ++ content

/-- The keyword-fallback no-match message (contains the keyword). -/
def xiaojiangNotFound (kw : Str) : Str :=
  str "识别到音乐链接，但在搜索《" ++ kw ++ str "》时未能匹配到歌词正文。"

/-- Network oracles of the music resolver.  Each field models one
guarded block of network I/O plus its response parsing; `.error ()`
models an exception raised inside `_handle_music_direct_api`'s `try`
(network failure, timeout, malformed JSON …), which its `except`
converts into the keyword fallback on the original URL. -/
structure MusicEnv where
  /-- The redirect-following HEAD request: final URL, or an exception. -/
  headRedirect : Str → Except Unit Str
  /-- NetEase lyric API for a song ID: the `lrc.lyric` and
  `tlyric.lyric` fields of the parsed JSON (either may be empty), or an
  exception while fetching/parsing. -/
  neteaseApi : Str → Except Unit (Str × Str)
  /-- QQ lyric API for a MID: `.error` models an exception while
  fetching the response text (outside the inner `try`); `.ok none`
  models a JSON-parse failure swallowed by the inner bare `except`;
  `.ok (some l)` is the parsed `lyric` field (possibly empty). -/
  qqApi : Str → Except Unit (Option Str)
  /-- Kuwo lyric API for a music ID: the `lineLyric` entries of
  `data.lrclist` (possibly the empty list), or an exception. -/
  kuwoApi : Str → Except Unit (List Str)
  /-- The page-title fetch of `_fallback_xiaojiang_search` (GET plus
  `soup.title` handling, already including the `"未知歌曲"` default);
  `.error` models an exception, caught by that function's `except`. -/
  pageTitle : Str → Except Unit Str
  /-- `_search_xiaojiang`: the filtered lyric text of the first search
  result, or `none` when nothing is found; the function catches all of
  its own exceptions and returns `None`, so no error case exists. -/
  searchLyrics : Str → Option Str

/-- The direct-API tier of `_handle_music_direct_api`, evaluated on the
(possibly redirect-resolved) URL: the `elif` chain over
`music.163.com` / `y.qq.com` / `kuwo.cn`.  `.ok (some msg)` is a
successful `return` with a built message; `.ok none` means control
falls through to the bottom keyword-fallback call; `.error` means an
exception escaped to the outer `except`. -/
def directTier (env : MusicEnv) (finalUrl : Str) : Except Unit (Option Str) :=
  if pyIn (str "music.163.com") finalUrl then
    match neteaseId finalUrl with
    | some songId =>
      match env.neteaseApi songId with
      | .error e => .error e
      | .ok (lrc, tlrc) =>
        if lrc.isEmpty then .ok none else .ok (some (neteaseMsg songId lrc tlrc))
    | none => .ok none
  else if pyIn (str "y.qq.com") finalUrl then
    match qqMid finalUrl with
    | some mid =>
      match env.qqApi mid with
      | .error e => .error e
      | .ok none => .ok none
      | .ok (some lrc) => if lrc.isEmpty then .ok none else .ok (some (qqMsg mid lrc))
    | none => .ok none
  else if pyIn (str "kuwo.cn") finalUrl then
    match kuwoId finalUrl with
    | some mid =>
      match env.kuwoApi mid with
      | .error e => .error e
      | .ok [] => .ok none
      | .ok (l :: ls) => .ok (some (kuwoMsg (l :: ls)))
    | none => .ok none
  else .ok none

/-- An alternative of the title-suffix regex of
`_fallback_xiaojiang_search` matching from the current position through
to the end of the string (`$` is modelled as end-of-string; `.` does
not cross a newline).  All alternatives extend to the end, so which one
matches does not affect the deleted extent. -/
def sfxMatchAt (t : Str) : Bool :=
  t == str " - 网易云音乐" || t == str " - QQ音乐" || t == str " - 酷狗音乐"
    || t == str " - 酷我音乐"
    || (match t with
        | '|' :: r => !pyIn (str "\n") r
        | _ => false)
    || ((str " - 歌曲").isPrefixOf t && !pyIn (str "\n") (t.drop 5))
    || t == str " - 单曲" || t == str " - 专辑" || t == str " - 咪咕音乐"

/-- `re.sub(r'( - 网易云音乐|...|\|.*| - 歌曲.*|...)$', '', title)`:
delete from the leftmost position whose tail matches an alternative. -/
def stripTitleSuffix : Str → Str
  | [] => []
  | c :: rest => if sfxMatchAt (c :: rest) then [] else c :: stripTitleSuffix rest

/-- `re.sub(r'^(歌曲|单曲|分享|正在播放)：', '', song_name)`. -/
def dropCreditTag (s : Str) : Str :=
  if (str "歌曲：").isPrefixOf s then s.drop 3
  else if (str "单曲：").isPrefixOf s then s.drop 3
  else if (str "分享：").isPrefixOf s then s.drop 3
  else if (str "正在播放：").isPrefixOf s then s.drop 5
  else s

/-- Opening brackets of the decoration regex `[（《\(【]`. -/
def isOpenBracket (c : Char) : Bool :=
  c = '（' || c = '《' || c = '(' || c = '【'

/-- Closing brackets of the decoration regex `[）》\)】]`. -/
def isCloseBracket (c : Char) : Bool :=
  c = '）' || c = '》' || c = ')' || c = '】'

/-- Index of the first closing bracket (the non-greedy `.*?` stops
there); `none` when a newline or the end of the string comes first. -/
def bracketCloser : Str → Option Nat
  | [] => none
  | c :: rest =>
    if c = '\n' then none
    else if isCloseBracket c then some 0
    else (bracketCloser rest).map (· + 1)

/-- Fueled scanner for `re.sub(r'[（《\(【].*?[）》\)】]', '', s)`;
always called with `fuel = s.length`, which suffices since every step
consumes at least one character. -/
def stripBracketsAux : Nat → Str → Str
  | _, [] => []
  | 0, s => s
  | fuel + 1, c :: rest =>
    if isOpenBracket c then
      match bracketCloser rest with
      | some n => stripBracketsAux fuel (rest.drop (n + 1))
      | none => c :: stripBracketsAux fuel rest
    else c :: stripBracketsAux fuel rest

/-- `re.sub(r'[（《\(【].*?[）》\)】]', '', s)` of the keyword cleaner. -/
def stripBrackets (s : Str) : Str := stripBracketsAux s.length s

/-- Python's `str.split(' - ')` (three-character separator, all
occurrences, left to right, empty pieces kept). -/
def splitDash : Str → List Str
  | ' ' :: '-' :: ' ' :: rest => [] :: splitDash rest
  | c :: rest =>
    match splitDash rest with
    | [] => [[c]]
    | h :: t => (c :: h) :: t
  | [] => [[]]

/-- A character kept by `re.sub(r'[^\w一-鿿]', '', s)`:
word characters, modelled as ASCII alphanumerics plus underscore plus
the explicit CJK range (the further Unicode word categories of `\w` are
not modelled). -/
def pyWordChar (c : Char) : Bool :=
  c.isAlpha || c.isDigit || c = '_'
    || (decide (0x4e00 ≤ c.toNat) && decide (c.toNat ≤ 0x9fff))

/-- The keyword-extraction pipeline of `_fallback_xiaojiang_search`
(steps 1–4 of the code: suffix strip, credit-tag strip, bracket strip,
artist split, word-character safety check, `title[:15]` fallback). -/
def computeKeyword (title : Str) : Str :=
  let songName := dropCreditTag (pyStrip (stripTitleSuffix title))
  let cleanName := pyStrip (stripBrackets songName)
  let cleanName :=
    if pyIn (str " - ") cleanName then
      let parts := splitDash cleanName
      let p0 := pyStrip (parts.headD [])
      if decide (1 < p0.length) then p0 else pyStrip (parts.tail.headD [])
    else cleanName
  let finalKw :=
    if decide (1 ≤ (cleanName.filter pyWordChar).length) then cleanName else songName
  if finalKw.isEmpty then title.take 15 else finalKw

/-- `_fallback_xiaojiang_search`: fetch the title, derive a keyword,
search; a successful non-empty search result yields the found message,
an empty or missing one the not-found message, and an exception while
fetching the title the fixed failure message. -/
def fallbackXiaojiang (env : MusicEnv) (url : Str) : Str :=
  match env.pageTitle url with
  | .error _ => musicFail
  | .ok title =>
    let kw := computeKeyword title
    match env.searchLyrics kw with
    | some content =>
      if content.isEmpty then xiaojiangNotFound kw else xiaojiangFound kw content
    | none => xiaojiangNotFound kw

/-- The URL the direct-API tier runs on: the redirect-resolved URL for
short-link URLs (`.error` when the HEAD request raises), the original
URL otherwise. -/
def finalUrlOf (env : MusicEnv) (url : Str) : Except Unit Str :=
  if isShortLink url then env.headRedirect url else .ok url

/-- Continuation of `_handle_music_direct_api` once the final URL is
known.  The second component instruments the model: it lists the URLs
passed to `_fallback_xiaojiang_search` during the call. -/
def handleMusicRedirected (env : MusicEnv) (url finalUrl : Str) : Str × List Str :=
  match directTier env finalUrl with
  | .error _ => (fallbackXiaojiang env url, [url])
  | .ok (some msg) => (msg, [])
  | .ok none => (fallbackXiaojiang env finalUrl, [finalUrl])

/-- `_handle_music_direct_api` of `main.py`.  An exception during
redirect resolution (or anywhere else inside the `try`) lands in the
`except`, which calls the keyword fallback on the **original** URL; the
fall-through at the bottom of the `try` calls it on the final URL.  The
second component lists the URLs passed to `_fallback_xiaojiang_search`. -/
def handleMusicDirectApi (env : MusicEnv) (url : Str) : Str × List Str :=
  match finalUrlOf env url with
  | .error _ => (fallbackXiaojiang env url, [url])
  | .ok finalUrl => handleMusicRedirected env url finalUrl

/-- Oracles and configuration of `_fetch_url_content`. -/
structure FetchEnv where
  /-- Oracles of the music tier. -/
  music : MusicEnv
  /-- The configured `max_content_length`. -/
  maxLength : Nat
  /-- `HAS_PLAYWRIGHT`: the rendering capability is importable. -/
  hasPlaywright : Bool
  /-- `_get_screenshot_and_content`'s browser session: rendered HTML
  and base64 screenshot, or `none` when rendering failed (the code
  returns `None, None` together on any exception). -/
  render : Str → Option (Str × Str)
  /-- BeautifulSoup text extraction (after tag removal) applied to the
  rendered HTML of the social branch. -/
  extractHtmlText : Str → Str
  /-- The generic branch's GET plus BeautifulSoup text extraction:
  the extracted page text, or the exception's string representation. -/
  httpGetText : Str → Except Str Str

/-- `_get_screenshot_and_content`: `None` without Playwright, else the
render oracle. -/
def getScreenshotAndContent (env : FetchEnv) (url : Str) : Option (Str × Str) :=
  if env.hasPlaywright then env.render url else none

/-- The generic-fetch tail of `_fetch_url_content`: cleaned page text,
or `f"网页解析出错: {e}"` on an exception; never a screenshot. -/
def genericFetch (env : FetchEnv) (url : Str) : Str × Option Str :=
  match env.httpGetText url with
  | .ok t => (cleanText env.maxLength t, none)
  | .error e => (str "网页解析出错: " ++ e, none)

/-- `_fetch_url_content` of `main.py`: music sites go to the music
resolver (no screenshot); social platforms with Playwright available
are rendered, falling through to the generic fetch when the render
yields no HTML; everything else takes the generic fetch. -/
def fetchUrlContent (env : FetchEnv) (url : Str) : Str × Option Str :=
  if isMusicSite url then ((handleMusicDirectApi env.music url).1, none)
  else
    let domain := netloc url
    if socialPlatforms.any (fun sp => pyIn sp domain) && env.hasPlaywright then
      match getScreenshotAndContent env url with
      | some (html, shot) =>
        if html.isEmpty then genericFetch env url
        else (cleanText env.maxLength (env.extractHtmlText html), some shot)
      | none => genericFetch env url
    else genericFetch env url

theorem isPrefixOf_iff_ex {n h : Str} : n.isPrefixOf h = true ↔ ∃ t, h = n ++ t := by
  induction n generalizing h with
  | nil => simp [List.isPrefixOf]
  | cons a as ih =>
    cases h with
    | nil => simp [List.isPrefixOf]
    | cons b bs =>
      simp only [List.isPrefixOf, Bool.and_eq_true, beq_iff_eq, ih, List.cons_append,
        List.cons.injEq]
      constructor
      · rintro ⟨rfl, t, rfl⟩; exact ⟨t, rfl, rfl⟩
      · rintro ⟨t, rfl, rfl⟩; exact ⟨rfl, t, rfl⟩

theorem pyIn_iff_ex {n h : Str} : pyIn n h = true ↔ ∃ a b, h = a ++ n ++ b := by
  induction h with
  | nil =>
    simp only [pyIn, List.isEmpty_iff]
    constructor
    · rintro rfl; exact ⟨[], [], rfl⟩
    · rintro ⟨a, b, hab⟩
      rcases List.append_eq_nil.mp hab.symm with ⟨h1, h2⟩
      exact (List.append_eq_nil.mp h1).2
  | cons c t ih =>
    simp only [pyIn, Bool.or_eq_true, isPrefixOf_iff_ex, ih]
    constructor
    · rintro (⟨u, hu⟩ | ⟨a, b, rfl⟩)
      · exact ⟨[], u, by simpa using hu⟩
      · exact ⟨c :: a, b, rfl⟩
    · rintro ⟨a, b, hab⟩
      cases a with
      | nil => exact Or.inl ⟨b, by simpa using hab⟩
      | cons a0 as =>
        right
        rcases List.cons_eq_cons.mp (by simpa using hab) with ⟨rfl, h2⟩
        exact ⟨as, b, by rw [h2, List.append_assoc]⟩

theorem pyIn_trans {n m u : Str} (h1 : pyIn n m = true) (h2 : pyIn m u = true) :
    pyIn n u = true := by
  rcases pyIn_iff_ex.mp h1 with ⟨a, b, rfl⟩
  rcases pyIn_iff_ex.mp h2 with ⟨c, d, rfl⟩
  exact pyIn_iff_ex.mpr ⟨c ++ a, b ++ d, by simp⟩

theorem pyIn_singleton {a : Char} {l : Str} : pyIn [a] l = true ↔ a ∈ l := by
  rw [pyIn_iff_ex]
  constructor
  · rintro ⟨x, y, rfl⟩; simp
  · intro h
    rcases List.append_of_mem h with ⟨x, y, rfl⟩
    exact ⟨x, y, by simp⟩

theorem afterScheme_ex {u r : Str} (h : afterScheme u = some r) : ∃ p, u = p ++ r := by
  induction u with
  | nil => simp [afterScheme] at h
  | cons c rest ih =>
    by_cases hp : (str "://").isPrefixOf (c :: rest) = true
    · rw [afterScheme, if_pos hp] at h
      rcases isPrefixOf_iff_ex.mp hp with ⟨t, ht⟩
      refine ⟨str "://", ?_⟩
      rw [ht] at h ⊢
      simpa [str] using h
    · rw [afterScheme, if_neg hp] at h
      rcases ih h with ⟨p, hp2⟩
      exact ⟨c :: p, by rw [List.cons_append, ← hp2]⟩

theorem pyIn_netloc {d u : Str} (h : pyIn d (netloc u) = true) : pyIn d u = true := by
  unfold netloc at h
  cases hs : afterScheme u with
  | none =>
    rw [hs] at h
    rcases pyIn_iff_ex.mp h with ⟨a, b, hab⟩
    rcases List.append_eq_nil.mp hab.symm with ⟨h1, _⟩
    rcases List.append_eq_nil.mp h1 with ⟨_, rfl⟩
    clear hab h1
    induction u with
    | nil => exact pyIn_iff_ex.mpr ⟨[], [], rfl⟩
    | cons c t ih => exact pyIn_iff_ex.mpr ⟨[], c :: t, rfl⟩
  | some rest =>
    rw [hs] at h
    rcases afterScheme_ex hs with ⟨p, rfl⟩
    refine pyIn_trans h ?_
    refine pyIn_iff_ex.mpr ⟨p, rest.dropWhile (fun c => !(c = '/' || c = '?' || c = '#')), ?_⟩
    rw [List.append_assoc, List.takeWhile_append_dropWhile]

theorem dropWhile_head_not {p : Char → Bool} {l : Str} {a : Char}
    (h : (l.dropWhile p).head? = some a) : p a = false := by
  induction l with
  | nil => simp at h
  | cons c t ih =>
    by_cases hp : p c = true
    · rw [List.dropWhile_cons_of_pos hp] at h; exact ih h
    · rw [List.dropWhile_cons_of_neg (by simp [hp])] at h
      simp at h
      subst h
      simpa using hp

theorem glast_append {t l : Str} (h : l ≠ []) : (t ++ l).getLast? = l.getLast? := by
  rw [List.getLast?_eq_head?_reverse, List.getLast?_eq_head?_reverse, List.reverse_append,
    List.head?_append]
  cases hr : l.reverse with
  | nil => exact absurd (by simpa using hr) h
  | cons b bs => simp

theorem dropWhile_eq_self_of_head {p : Char → Bool} {l : Str}
    (h : ∀ a, l.head? = some a → p a = false) : l.dropWhile p = l := by
  cases l with
  | nil => rfl
  | cons c t => exact List.dropWhile_cons_of_neg (by simp [h c rfl])

theorem pyStrip_last {x : Str} {a : Char} (h : (pyStrip x).getLast? = some a) :
    pyWs a = false := by
  unfold pyStrip at h
  rw [List.getLast?_reverse] at h
  exact dropWhile_head_not h

theorem pyStrip_head {x : Str} {a : Char} (h : (pyStrip x).head? = some a) :
    pyWs a = false := by
  unfold pyStrip at h
  rw [List.head?_reverse] at h
  set u := x.dropWhile pyWs with hu
  set v := u.reverse.dropWhile pyWs with hv
  cases hvv : v with
  | nil => rw [hvv] at h; simp at h
  | cons b bs =>
    have hvne : v ≠ [] := by rw [hvv]; simp
    have hsfx : ∃ pre, u.reverse = pre ++ v := by
      have : List.dropWhile pyWs u.reverse <:+ u.reverse := List.dropWhile_suffix pyWs
      rcases this with ⟨pre, hpre⟩
      exact ⟨pre, hpre.symm⟩
    rcases hsfx with ⟨pre, hpre⟩
    have h2 : (u.reverse).getLast? = some a := by
      rw [hpre, glast_append hvne]
      exact h
    rw [List.getLast?_reverse] at h2
    exact dropWhile_head_not (hu ▸ h2)

theorem pyStrip_eq_self_of_ends {l : Str}
    (h1 : ∀ a, l.head? = some a → pyWs a = false)
    (h2 : ∀ a, l.getLast? = some a → pyWs a = false) : pyStrip l = l := by
  unfold pyStrip
  rw [dropWhile_eq_self_of_head h1]
  rw [dropWhile_eq_self_of_head (fun a ha => h2 a (by rwa [List.head?_reverse] at ha))]
  exact List.reverse_reverse l

theorem pyStrip_pyStrip (x : Str) : pyStrip (pyStrip x) = pyStrip x :=
  pyStrip_eq_self_of_ends (fun _ h => pyStrip_head h) (fun _ h => pyStrip_last h)

theorem mem_pyStrip {c : Char} {s : Str} (h : c ∈ pyStrip s) : c ∈ s := by
  unfold pyStrip at h
  rw [List.mem_reverse] at h
  have h2 := List.dropWhile_subset pyWs h
  rw [List.mem_reverse] at h2
  exact List.dropWhile_subset pyWs h2

theorem splitCh_ne_nil (a : Char) (s : Str) : splitCh a s ≠ [] := by
  induction s with
  | nil => simp [splitCh]
  | cons c t ih =>
    rw [splitCh]
    split
    · simp
    · cases h : splitCh a t with
      | nil => simp
      | cons x xs => simp

theorem mem_splitCh_mem {a : Char} {s l : Str} {c : Char}
    (hl : l ∈ splitCh a s) (hc : c ∈ l) : c ∈ s := by
  induction s generalizing l with
  | nil =>
    simp [splitCh] at hl
    subst hl
    simp at hc
  | cons d t ih =>
    rw [splitCh] at hl
    by_cases hd : d = a
    · rw [if_pos hd] at hl
      rcases List.mem_cons.mp hl with rfl | hl2
      · simp at hc
      · exact List.mem_cons_of_mem _ (ih hl2 hc)
    · rw [if_neg hd] at hl
      cases hsp : splitCh a t with
      | nil => exact absurd hsp (splitCh_ne_nil a t)
      | cons x xs =>
        rw [hsp] at hl
        rcases List.mem_cons.mp hl with rfl | hl2
        · rcases List.mem_cons.mp hc with rfl | hc2
          · simp
          · exact List.mem_cons_of_mem _ (ih (hsp ▸ List.mem_cons_self x xs) hc2)
        · exact List.mem_cons_of_mem _ (ih (hsp ▸ List.mem_cons_of_mem x hl2) hc)

theorem sep_not_mem_splitCh {a : Char} {s l : Str} (hl : l ∈ splitCh a s) : a ∉ l := by
  induction s generalizing l with
  | nil =>
    simp [splitCh] at hl
    subst hl
    simp
  | cons d t ih =>
    rw [splitCh] at hl
    by_cases hd : d = a
    · rw [if_pos hd] at hl
      rcases List.mem_cons.mp hl with rfl | hl2
      · simp
      · exact ih hl2
    · rw [if_neg hd] at hl
      cases hsp : splitCh a t with
      | nil => exact absurd hsp (splitCh_ne_nil a t)
      | cons x xs =>
        rw [hsp] at hl
        rcases List.mem_cons.mp hl with rfl | hl2
        · intro hmem
          rcases List.mem_cons.mp hmem with rfl | h2
          · exact hd rfl
          · exact ih (hsp ▸ List.mem_cons_self x xs) h2
        · exact ih (hsp ▸ List.mem_cons_of_mem x hl2)

theorem splitCh_of_not_mem {a : Char} {l : Str} (h : a ∉ l) : splitCh a l = [l] := by
  induction l with
  | nil => rfl
  | cons c t ih =>
    have hca : ¬(c = a) := fun hc => h (hc ▸ List.mem_cons_self c t)
    rw [splitCh, if_neg hca, ih (fun hm => h (List.mem_cons_of_mem c hm))]

theorem splitCh_append_cons {a : Char} {l y : Str} (h : a ∉ l) :
    splitCh a (l ++ a :: y) = l :: splitCh a y := by
  induction l with
  | nil => simp [splitCh]
  | cons c t ih =>
    have hca : ¬(c = a) := fun hc => h (hc ▸ List.mem_cons_self c t)
    rw [List.cons_append, splitCh, if_neg hca, ih (fun hm => h (List.mem_cons_of_mem c hm))]

theorem intercalate_nil (s : Str) : List.intercalate s ([] : List Str) = [] := rfl

theorem intercalate_single (s x : Str) : List.intercalate s [x] = x := by
  simp [List.intercalate]

theorem intercalate_cons_cons (s x y : Str) (t : List Str) :
    List.intercalate s (x :: y :: t) = x ++ s ++ List.intercalate s (y :: t) := by
  simp [List.intercalate, List.append_assoc]

theorem splitCh_intercalate {a : Char} {L : List Str} (hne : L ≠ [])
    (h : ∀ l ∈ L, a ∉ l) : splitCh a (List.intercalate [a] L) = L := by
  induction L with
  | nil => exact absurd rfl hne
  | cons l t ih =>
    cases t with
    | nil => rw [intercalate_single]; exact splitCh_of_not_mem (h l (List.mem_cons_self l []))
    | cons l2 t2 =>
      rw [intercalate_cons_cons]
      have : l ++ [a] ++ List.intercalate [a] (l2 :: t2)
          = l ++ a :: List.intercalate [a] (l2 :: t2) := by simp
      rw [this, splitCh_append_cons (h l (List.mem_cons_self l _))]
      rw [ih (by simp) (fun x hx => h x (List.mem_cons_of_mem l hx))]

theorem not_mem_intercalate {x a : Char} {L : List Str} (hx : ¬(x = a))
    (h : ∀ l ∈ L, x ∉ l) : x ∉ List.intercalate [a] L := by
  induction L with
  | nil => simp [intercalate_nil]
  | cons l t ih =>
    cases t with
    | nil =>
      rw [intercalate_single]
      exact h l (List.mem_cons_self l [])
    | cons l2 t2 =>
      rw [intercalate_cons_cons]
      intro hmem
      rcases List.mem_append.mp hmem with h1 | h2
      · rcases List.mem_append.mp h1 with h3 | h4
        · exact h l (List.mem_cons_self l _) h3
        · exact hx (by simpa using h4)
      · exact ih (fun y hy => h y (List.mem_cons_of_mem l hy)) h2

theorem intercalate_ne_nil {a : Char} {f : Str} {fs : List Str} (hf : f ≠ []) :
    List.intercalate [a] (f :: fs) ≠ [] := by
  cases fs with
  | nil => rw [intercalate_single]; exact hf
  | cons l2 t2 =>
    rw [intercalate_cons_cons]
    simp [hf]

theorem flatten_map_single (L : List Str) : (L.map (fun l => [l])).flatten = L := by
  induction L with
  | nil => rfl
  | cons l t ih => simp [ih]

theorem replEscNl_eq_self {s : Str} (h : ('\\' : Char) ∉ s) : replEscNl s = s := by
  induction s using replEscNl.induct with
  | case1 rest ih => exact absurd (List.mem_cons_self '\\' _) h
  | case2 c rest hne ih =>
    rw [replEscNl, ih (fun hm => h (List.mem_cons_of_mem c hm))]
    exact hne
  | case3 => rfl

theorem replEscCr_eq_self {s : Str} (h : ('\\' : Char) ∉ s) : replEscCr s = s := by
  induction s using replEscCr.induct with
  | case1 rest ih => exact absurd (List.mem_cons_self '\\' _) h
  | case2 c rest hne ih =>
    rw [replEscCr, ih (fun hm => h (List.mem_cons_of_mem c hm))]
    exact hne
  | case3 => rfl

theorem mem_stripTsAux : ∀ {fuel : Nat} {s : Str} {c : Char}, c ∈ stripTsAux fuel s → c ∈ s := by
  intro fuel
  induction fuel with
  | zero =>
    intro s c h
    cases s with
    | nil => simp [stripTsAux] at h
    | cons d rest => simpa only [stripTsAux] using h
  | succ f ih =>
    intro s c h
    cases s with
    | nil => simp [stripTsAux] at h
    | cons d rest =>
      simp only [stripTsAux] at h
      by_cases hd : d = '['
      · rw [if_pos hd] at h
        cases ht : tsBodyLen rest with
        | some n =>
          simp only [ht] at h
          exact List.mem_cons_of_mem _ (List.drop_subset _ _ (ih h))
        | none =>
          simp only [ht] at h
          rcases List.mem_cons.mp h with h1 | h2
          · rw [hd, h1]
            exact List.mem_cons_self '[' rest
          · exact List.mem_cons_of_mem _ (ih h2)
      · rw [if_neg hd] at h
        rcases List.mem_cons.mp h with h1 | h2
        · rw [h1]
          exact List.mem_cons_self d rest
        · exact List.mem_cons_of_mem _ (ih h2)

theorem stripTsAux_eq_self : ∀ {fuel : Nat} {s : Str}, ('[' : Char) ∉ s →
    stripTsAux fuel s = s := by
  intro fuel
  induction fuel with
  | zero =>
    intro s h
    cases s with
    | nil => rfl
    | cons d rest => rfl
  | succ f ih =>
    intro s h
    cases s with
    | nil => rfl
    | cons d rest =>
      have hd : ¬(d = '[') := fun hc => h (hc ▸ List.mem_cons_self d rest)
      simp only [stripTsAux, if_neg hd]
      rw [ih (fun hm => h (List.mem_cons_of_mem d hm))]

theorem mem_stripTs {s : Str} {c : Char} (h : c ∈ stripTs s) : c ∈ s :=
  mem_stripTsAux h

theorem stripTs_eq_self {s : Str} (h : ('[' : Char) ∉ s) : stripTs s = s :=
  stripTsAux_eq_self h

theorem head?_mem {l : Str} {a : Char} (h : l.head? = some a) : a ∈ l := by
  cases l with
  | nil => simp at h
  | cons c t =>
    simp at h
    rw [h]
    exact List.mem_cons_self a t

theorem pyIn_space_iff {l : Str} : pyIn (str " ") l = true ↔ (' ' : Char) ∈ l := by
  have h : str " " = [' '] := rfl
  rw [h, pyIn_singleton]

theorem processLine_sub {raw : Str} {c : Char}
    (h : c ∈ pyStrip (stripTs (pyStrip raw))) : c ∈ raw :=
  mem_pyStrip (mem_stripTs (mem_pyStrip h))

theorem processLine_shape {raw : Str} (hsp : (' ' : Char) ∉ raw) :
    processLine raw = [] ∨
      (processLine raw = [pyStrip (stripTs (pyStrip raw))] ∧
        metaDrop (pyStrip (stripTs (pyStrip raw))) = false ∧
        pyStrip (stripTs (pyStrip raw)) ≠ []) := by
  simp only [processLine]
  by_cases h1 : (pyStrip raw).isEmpty = true
  · rw [if_pos h1]
    exact Or.inl rfl
  · rw [if_neg h1]
    by_cases h2 : (pyStrip (stripTs (pyStrip raw))).isEmpty = true
    · rw [if_pos h2]
      exact Or.inl rfl
    · rw [if_neg h2]
      by_cases h3 : (((pyStrip (stripTs (pyStrip raw))).head? == some '[')
          && ((pyStrip (stripTs (pyStrip raw))).getLast? == some ']')) = true
      · rw [if_pos h3]
        exact Or.inl rfl
      · rw [if_neg h3]
        by_cases h4 : metaDrop (pyStrip (stripTs (pyStrip raw))) = true
        · rw [if_pos h4]
          exact Or.inl rfl
        · rw [if_neg h4]
          have hspl : pyIn (str " ") (pyStrip (stripTs (pyStrip raw))) = false := by
            rw [Bool.eq_false_iff]
            intro hc
            exact hsp (processLine_sub (pyIn_space_iff.mp hc))
          rw [hspl]
          simp only [Bool.false_and, if_false, Bool.false_eq_true]
          refine Or.inr ⟨?_, ?_, ?_⟩
          · trivial
          · exact Bool.eq_false_iff.mpr h4
          · intro hnil
            rw [hnil] at h2
            exact h2 rfl

theorem processLine_stable {l : Str} (hstrip : pyStrip l = l) (hbr : ('[' : Char) ∉ l)
    (hmd : metaDrop l = false) (hsp : (' ' : Char) ∉ l) (hne : l ≠ []) :
    processLine l = [l] := by
  have hTs : stripTs l = l := stripTs_eq_self hbr
  simp only [processLine, hstrip, hTs]
  have h1 : l.isEmpty = false := by
    cases l with
    | nil => exact absurd rfl hne
    | cons c t => rfl
  rw [h1]
  simp only [Bool.false_eq_true, if_false]
  have h3 : (l.head? == some '[') = false := by
    cases hh : l.head? with
    | none => rfl
    | some a =>
      have : a ∈ l := head?_mem hh
      have haneq : ¬(a = '[') := fun hq => hbr (hq ▸ this)
      simp [haneq]
  rw [h3]
  simp only [Bool.false_and, if_false]
  rw [hmd]
  simp only [Bool.false_eq_true, if_false]
  have hspl : pyIn (str " ") l = false := by
    rw [Bool.eq_false_iff]
    intro hc
    exact hsp (pyIn_space_iff.mp hc)
  rw [hspl]
  simp only [Bool.false_and, Bool.false_eq_true, if_false]

theorem filterLyrics_eq {s : Str} (hne : ¬s.isEmpty = true) (hbs : ('\\' : Char) ∉ s) :
    filterLyrics s =
      List.intercalate ['\n']
        ((((splitCh '\n' s).map processLine).flatten).filter keepFinal) := by
  simp only [filterLyrics, if_neg hne, replEscNl_eq_self hbs, replEscCr_eq_self hbs]

theorem finalsSpec {s l : Str} (h1 : (' ' : Char) ∉ s) (h2 : ('[' : Char) ∉ s)
    (h3 : ('\\' : Char) ∉ s)
    (hl : l ∈ (((splitCh '\n' s).map processLine).flatten).filter keepFinal) :
    pyStrip l = l ∧ metaDrop l = false ∧ keepFinal l = true ∧ l ≠ [] ∧
      ∀ c ∈ l, c ∈ s ∧ ¬(c = '\n') := by
  rcases List.mem_filter.mp hl with ⟨hfl, hk⟩
  rcases List.exists_of_mem_flatten hfl with ⟨ll, hll, hlin⟩
  rcases List.mem_map.mp hll with ⟨raw, hraw, rfl⟩
  have hraw_sub : ∀ c ∈ raw, c ∈ s := fun c hc => mem_splitCh_mem hraw hc
  have hraw_nl : ('\n' : Char) ∉ raw := sep_not_mem_splitCh hraw
  have hraw_sp : (' ' : Char) ∉ raw := fun hc => h1 (hraw_sub _ hc)
  rcases processLine_shape hraw_sp with hshape | ⟨hshape, hmd, hne⟩
  · rw [hshape] at hlin
    simp at hlin
  · rw [hshape] at hlin
    rcases List.mem_cons.mp hlin with rfl | hfalse
    · refine ⟨pyStrip_pyStrip _, hmd, hk, hne, fun c hc => ?_⟩
      have hcr : c ∈ raw := processLine_sub hc
      exact ⟨hraw_sub _ hcr, fun hq => hraw_nl (hq ▸ hcr)⟩
    · simp at hfalse

/-- C3 (amended): `FilterLyrics` is idempotent on inputs that contain no
space, no opening square bracket and no backslash (the three characters
through which a second pass can differ: CJK space-splitting can emit
bracketed or space-free fragments the next pass deletes, and timestamp
deletion can create a literal backslash-n pair). -/
theorem c3_theorem {s : Str} (h1 : (' ' : Char) ∉ s) (h2 : ('[' : Char) ∉ s)
    (h3 : ('\\' : Char) ∉ s) : filterLyrics (filterLyrics s) = filterLyrics s := by
  by_cases hs : s.isEmpty = true
  · have hnil : s = [] := by simpa using hs
    subst hnil
    rfl
  · rw [filterLyrics_eq hs h3]
    cases hfin : (((splitCh '\n' s).map processLine).flatten).filter keepFinal with
    | nil => rw [intercalate_nil]; rfl
    | cons f fs =>
      have hspec : ∀ l ∈ (((splitCh '\n' s).map processLine).flatten).filter keepFinal,
          pyStrip l = l ∧ metaDrop l = false ∧ keepFinal l = true ∧ l ≠ [] ∧
            ∀ c ∈ l, c ∈ s ∧ ¬(c = '\n') := fun l hl => finalsSpec h1 h2 h3 hl
      rw [hfin] at hspec
      have hfne : f ≠ [] := (hspec f (List.mem_cons_self f fs)).2.2.2.1
      have hout_ne : List.intercalate ['\n'] (f :: fs) ≠ [] := intercalate_ne_nil hfne
      have hout_isEmpty : ¬(List.intercalate ['\n'] (f :: fs)).isEmpty = true := by
        cases hq : List.intercalate ['\n'] (f :: fs) with
        | nil => exact absurd hq hout_ne
        | cons x xs => simp
      have hout_bs : ('\\' : Char) ∉ List.intercalate ['\n'] (f :: fs) := by
        refine not_mem_intercalate (by decide) ?_
        intro l hlmem hmem
        exact h3 (((hspec l hlmem).2.2.2.2 _ hmem).1)
      rw [filterLyrics_eq hout_isEmpty hout_bs]
      rw [splitCh_intercalate (by simp) (fun l hlmem c => ((hspec l hlmem).2.2.2.2 _ c).2 rfl)]
      have hmapstable : (f :: fs).map processLine = (f :: fs).map (fun l => [l]) := by
        refine List.map_congr_left ?_
        intro l hlmem
        rcases hspec l hlmem with ⟨hstrip, hmd, hk, hne, hchars⟩
        refine processLine_stable hstrip ?_ hmd ?_ hne
        · intro hmem
          exact h2 ((hchars _ hmem).1)
        · intro hmem
          exact h1 ((hchars _ hmem).1)
      rw [hmapstable, flatten_map_single]
      rw [List.filter_eq_self.mpr (fun l hlmem => (hspec l hlmem).2.2.1)]

theorem pyIn_colon_iff {l : Str} : pyIn (str ":") l = true ↔ (':' : Char) ∈ l := by
  rw [show str ":" = [':'] from rfl, pyIn_singleton]

theorem pyIn_fwcolon_iff {l : Str} : pyIn (str "：") l = true ↔ ('：' : Char) ∈ l := by
  rw [show str "：" = ['：'] from rfl, pyIn_singleton]

/-- C4 (amended): a line is dropped by the metadata rule of
`_filter_lyrics` exactly when it either contains a colon (ASCII or
full-width) and is under 35 characters, or contains the separator
`" - "` (regardless of its length), unless it contains one of the
lyric-marker keywords.  The spec's claim that the 35-character bound also
limits the `" - "` case is refuted by `c4_counterexample`. -/
theorem c4_theorem (line : Str) :
    metaDrop line = true ↔
      (((((':' : Char) ∈ line ∨ ('：' : Char) ∈ line) ∧ line.length < 35) ∨
          ∃ a b, line = a ++ str " - " ++ b) ∧
        ∀ kw ∈ lyricKeywords, ¬∃ a b, line = a ++ kw ++ b) := by
  unfold metaDrop
  rw [Bool.and_eq_true, Bool.not_eq_true']
  constructor
  · rintro ⟨hc, hkw⟩
    constructor
    · rcases Bool.or_eq_true_iff.mp hc with h | h
      · rcases Bool.and_eq_true_iff.mp h with ⟨hcol, hlen⟩
        refine Or.inl ⟨?_, by simpa using hlen⟩
        rcases Bool.or_eq_true_iff.mp hcol with h2 | h2
        · exact Or.inl (pyIn_colon_iff.mp h2)
        · exact Or.inr (pyIn_fwcolon_iff.mp h2)
      · exact Or.inr (pyIn_iff_ex.mp h)
    · intro kw hkwmem hex
      have : lyricKeywords.any (fun kw => pyIn kw line) = true :=
        List.any_eq_true.mpr ⟨kw, hkwmem, pyIn_iff_ex.mpr hex⟩
      rw [this] at hkw
      exact Bool.true_eq_false.mp hkw
  · rintro ⟨hc, hkw⟩
    constructor
    · rcases hc with ⟨hcol, hlen⟩ | hdash
      · refine Bool.or_eq_true_iff.mpr (Or.inl (Bool.and_eq_true_iff.mpr ⟨?_, by simpa using hlen⟩))
        rcases hcol with h2 | h2
        · exact Bool.or_eq_true_iff.mpr (Or.inl (pyIn_colon_iff.mpr h2))
        · exact Bool.or_eq_true_iff.mpr (Or.inr (pyIn_fwcolon_iff.mpr h2))
      · exact Bool.or_eq_true_iff.mpr (Or.inr (pyIn_iff_ex.mpr hdash))
    · rw [Bool.eq_false_iff]
      intro hany
      rcases List.any_eq_true.mp hany with ⟨kw, hkwmem, hkwin⟩
      exact hkw kw hkwmem (pyIn_iff_ex.mp hkwin)

/-- C5: `_clean_text` returns at most `maxLength` plus the truncation
marker's length many characters, and the result is the truncated join
with the marker appended exactly when the joined cleaned text exceeds
`maxLength` characters. -/
theorem c5_theorem (text : Str) (maxLength : Nat) :
    (cleanText maxLength text).length ≤ maxLength + truncMarker.length ∧
      (maxLength < (cleanJoin text).length ↔
        cleanText maxLength text = (cleanJoin text).take maxLength ++ truncMarker) := by
  unfold cleanText
  by_cases h : maxLength < (cleanJoin text).length
  · rw [if_pos (by simpa using h)]
    constructor
    · rw [List.length_append, List.length_take]
      omega
    · exact ⟨fun _ => rfl, fun _ => h⟩
  · rw [if_neg (by simpa using h)]
    constructor
    · have hm : truncMarker.length = 12 := rfl
      omega
    · constructor
      · intro hc
        exact absurd hc h
      · intro heq
        have hlen := congrArg List.length heq
        rw [List.length_append, List.length_take] at hlen
        have hm : truncMarker.length = 12 := rfl
        omega

theorem fallback_of_titleError {env : MusicEnv} {url : Str}
    (h : env.pageTitle url = .error ()) : fallbackXiaojiang env url = musicFail := by
  unfold fallbackXiaojiang
  rw [h]

theorem handleMusic_finalError {env : MusicEnv} {url : Str}
    (h : finalUrlOf env url = .error ()) :
    handleMusicDirectApi env url = (fallbackXiaojiang env url, [url]) := by
  unfold handleMusicDirectApi
  rw [h]

theorem handleMusic_tierError {env : MusicEnv} {url f : Str}
    (hf : finalUrlOf env url = .ok f) (he : directTier env f = .error ()) :
    handleMusicDirectApi env url = (fallbackXiaojiang env url, [url]) := by
  unfold handleMusicDirectApi
  rw [hf]
  show handleMusicRedirected env url f = _
  unfold handleMusicRedirected
  rw [he]

theorem handleMusic_tierSome {env : MusicEnv} {url f m : Str}
    (hf : finalUrlOf env url = .ok f) (hm : directTier env f = .ok (some m)) :
    handleMusicDirectApi env url = (m, []) := by
  unfold handleMusicDirectApi
  rw [hf]
  show handleMusicRedirected env url f = _
  unfold handleMusicRedirected
  rw [hm]

theorem handleMusic_tierNone {env : MusicEnv} {url f : Str}
    (hf : finalUrlOf env url = .ok f) (hm : directTier env f = .ok none) :
    handleMusicDirectApi env url = (fallbackXiaojiang env f, [f]) := by
  unfold handleMusicDirectApi
  rw [hf]
  show handleMusicRedirected env url f = _
  unfold handleMusicRedirected
  rw [hm]

theorem directTier_allFail {env : MusicEnv} (f : Str)
    (h2 : ∀ x, env.neteaseApi x = .error ())
    (h3 : ∀ x, env.qqApi x = .error ())
    (h4 : ∀ x, env.kuwoApi x = .error ()) :
    directTier env f = .error () ∨ directTier env f = .ok none := by
  unfold directTier
  by_cases ha : pyIn (str "music.163.com") f = true
  · rw [if_pos ha]
    cases neteaseId f with
    | some i => simp only [h2]; exact Or.inl trivial
    | none => exact Or.inr rfl
  · rw [if_neg ha]
    by_cases hb : pyIn (str "y.qq.com") f = true
    · rw [if_pos hb]
      cases qqMid f with
      | some i => simp only [h3]; exact Or.inl trivial
      | none => exact Or.inr rfl
    · rw [if_neg hb]
      by_cases hc : pyIn (str "kuwo.cn") f = true
      · rw [if_pos hc]
        cases kuwoId f with
        | some i => simp only [h4]; exact Or.inl trivial
        | none => exact Or.inr rfl
      · rw [if_neg hc]
        exact Or.inr rfl

theorem fetch_music {env : FetchEnv} {u : Str} (h : isMusicSite u = true) :
    fetchUrlContent env u = ((handleMusicDirectApi env.music u).1, none) := by
  unfold fetchUrlContent
  rw [if_pos h]

/-- C10: for a social-platform URL (not classified as music) with the
rendering capability available, when the headless-browser render fails
(absent HTML), `_fetch_url_content` falls through to the plain generic
GET path and returns its cleaned text with an absent screenshot. -/
theorem c10_theorem (env : FetchEnv) (u sp t : Str)
    (hsp : sp ∈ socialPlatforms) (hdom : pyIn sp (netloc u) = true)
    (hpw : env.hasPlaywright = true) (hmus : isMusicSite u = false)
    (hrender : env.render u = none) (hget : env.httpGetText u = .ok t) :
    fetchUrlContent env u = (cleanText env.maxLength t, none) := by
  unfold fetchUrlContent
  rw [hmus]
  simp only [Bool.false_eq_true, if_false]
  have hsoc : socialPlatforms.any (fun sp => pyIn sp (netloc u)) = true :=
    List.any_eq_true.mpr ⟨sp, hsp, hdom⟩
  rw [hsoc, hpw]
  simp only [Bool.and_self, if_true]
  unfold getScreenshotAndContent
  rw [hpw]
  simp only [if_true, hrender]
  unfold genericFetch
  rw [hget]

/-! Concrete environments used by the witness theorems below. -/

deriving instance DecidableEq for Except

/-- An environment in which every network operation raises. -/
def envMusicAllFail : MusicEnv :=
  { headRedirect := (fun _ => Except.error ()), neteaseApi := (fun _ => Except.error ()),
    qqApi := (fun _ => Except.error ()), kuwoApi := (fun _ => Except.error ()),
    pageTitle := (fun _ => Except.error ()), searchLyrics := (fun _ => none) }

/-- Every network operation raises except the NetEase lyric API. -/
def envNeteaseRedirectFail : MusicEnv :=
  { envMusicAllFail with neteaseApi := (fun _ => Except.ok (str "啦啦啦啦啦", [])) }

/-- NetEase lyric API works and the redirect resolves to a NetEase song page. -/
def envNeteaseRedirectOk : MusicEnv :=
  { envNeteaseRedirectFail with
      headRedirect := (fun _ => Except.ok (str "https://music.163.com/song?id=42")) }

/-- A fetch environment without Playwright whose generic GET raises. -/
def envFetchPlain : FetchEnv :=
  { music := envMusicAllFail, maxLength := 2000, hasPlaywright := false,
    render := (fun _ => none), extractHtmlText := (fun _ => []),
    httpGetText := (fun _ => Except.error (str "boom")) }

/-- A fetch environment with Playwright available, a failing renderer and a
working generic GET. -/
def envFetchSocial : FetchEnv :=
  { envFetchPlain with
      hasPlaywright := true
      render := fun _ => none
      httpGetText := fun _ => Except.ok (str "这是一段足够长的社交平台正文内容") }

/-- C1 (counterexample): the URL `https://MUSIC.163.COM/song?id=1` has a
host that is in the music-domain set up to letter case, yet
`_is_music_site` returns `false`: the matching is case-sensitive (and is
performed on the whole URL string, not the host). -/
theorem c1_counterexample :
    ((netloc (str "https://MUSIC.163.COM/song?id=1")).map Char.toLower) ∈ musicDomains ∧
      isMusicSite (str "https://MUSIC.163.COM/song?id=1") = false := by
  decide

/-- C1 (amended): every URL whose host contains a music-domain entry as a
case-sensitive substring is classified as a music site (the path and
query cannot change this, since the matching is substring matching over
the whole URL string); matching is case-sensitive, not case-insensitive. -/
theorem c1_theorem (u d : Str) (hd : d ∈ musicDomains)
    (hsub : pyIn d (netloc u) = true) : isMusicSite u = true :=
  List.any_eq_true.mpr ⟨d, hd, pyIn_netloc hsub⟩

/-- C1 witness: a lowercase NetEase URL is classified as music. -/
theorem c1_witness : isMusicSite (str "https://music.163.com/song?id=1") = true :=
  c1_theorem (str "https://music.163.com/song?id=1") (str "music.163.com")
    (by decide) (by decide)

/-- C2 (counterexample): on `"[00:12.34]你好\n作词：张三\nHello"` the
filter does not return exactly `"你好"` — the pure-Latin line `"Hello"`
is kept, since no rule of `_filter_lyrics` drops it. -/
theorem c2_counterexample :
    filterLyrics (str "[00:12.34]你好\n作词：张三\nHello") ≠ str "你好" := by
  decide

/-- C2 (amended): on that input (with real newlines or with literal
backslash-n pairs) `_filter_lyrics` returns `"你好\nHello"`: the
timestamp is stripped, the credit line `作词：张三` is dropped, and
`"Hello"` is retained. -/
theorem c2_theorem :
    filterLyrics (str "[00:12.34]你好\n作词：张三\nHello") = str "你好\nHello" ∧
      filterLyrics (str "[00:12.34]你好\\n作词：张三\\nHello") = str "你好\nHello" := by
  decide

/-- C3 (counterexample): `_filter_lyrics` is not idempotent: on
`"你 [abc]"` one application yields `"[abc]"` (the CJK space-splitting
rule emits the fragment unchecked), while a second application deletes
it via the bracketed-metadata rule. -/
theorem c3_counterexample :
    filterLyrics (filterLyrics (str "你 [abc]")) ≠ filterLyrics (str "你 [abc]") := by
  decide

/-- C3 witness: idempotence at a concrete space/bracket/backslash-free
lyric text. -/
theorem c3_witness :
    filterLyrics (filterLyrics (str "你好呀\n作词：张三\n123\nab:cd")) =
      filterLyrics (str "你好呀\n作词：张三\n123\nab:cd") :=
  c3_theorem (by decide) (by decide) (by decide)

/-- C4 (counterexample): a 35-character line containing `" - "` but no
colon and no lyric keyword is dropped by the metadata rule (the claim
said it is kept): the `" - "` disjunct of the condition is not guarded
by the length bound. -/
theorem c4_counterexample :
    35 ≤ (str "aaaaaaaaaaaaaaaa - aaaaaaaaaaaaaaaa").length ∧
      pyIn (str ":") (str "aaaaaaaaaaaaaaaa - aaaaaaaaaaaaaaaa") = false ∧
      pyIn (str "：") (str "aaaaaaaaaaaaaaaa - aaaaaaaaaaaaaaaa") = false ∧
      lyricKeywords.all
        (fun kw => !pyIn kw (str "aaaaaaaaaaaaaaaa - aaaaaaaaaaaaaaaa")) = true ∧
      metaDrop (str "aaaaaaaaaaaaaaaa - aaaaaaaaaaaaaaaa") = true ∧
      filterLyrics (str "aaaaaaaaaaaaaaaa - aaaaaaaaaaaaaaaa") = [] := by
  decide

/-- C6 (counterexample): for a short-link URL on which the redirect HEAD
request raises, `_handle_music_direct_api` does not continue the
provider ID-extraction and direct-API steps with the original URL — it
jumps to the keyword fallback on the original URL, even though the
direct tier would have succeeded on that very URL. -/
theorem c6_counterexample :
    handleMusicDirectApi envNeteaseRedirectFail
        (str "https://music.163.com/song?id=42&u=163cn.tv") =
      (musicFail, [str "https://music.163.com/song?id=42&u=163cn.tv"]) ∧
      directTier envNeteaseRedirectFail
          (str "https://music.163.com/song?id=42&u=163cn.tv") =
        .ok (some (neteaseMsg (str "42") (str "啦啦啦啦啦") [])) ∧
      ¬musicFail = neteaseMsg (str "42") (str "啦啦啦啦啦") [] := by
  decide

/-- C6 (amended): for a short-link URL, the resolver resolves the
redirect first and the direct tier consumes the **resolved** URL; if the
redirect request fails, the resolver skips ID extraction and the direct
API entirely and invokes the keyword-fallback tier with the original
URL. -/
theorem c6_theorem (env : MusicEnv) (u f m : Str) (hs : isShortLink u = true) :
    (env.headRedirect u = .ok f → directTier env f = .ok (some m) →
        handleMusicDirectApi env u = (m, [])) ∧
      (env.headRedirect u = .error () →
        handleMusicDirectApi env u = (fallbackXiaojiang env u, [u])) := by
  constructor
  · intro hr hd
    refine handleMusic_tierSome ?_ hd
    unfold finalUrlOf
    rw [if_pos hs]
    exact hr
  · intro hr
    refine handleMusic_finalError ?_
    unfold finalUrlOf
    rw [if_pos hs]
    exact hr

/-- C6 witness: a successful redirect of a short link feeds the resolved
URL to the direct tier, whose message is returned. -/
theorem c6_witness :
    handleMusicDirectApi envNeteaseRedirectOk (str "https://163cn.tv/abc") =
      (neteaseMsg (str "42") (str "啦啦啦啦啦") [], []) :=
  (c6_theorem envNeteaseRedirectOk (str "https://163cn.tv/abc")
      (str "https://music.163.com/song?id=42")
      (neteaseMsg (str "42") (str "啦啦啦啦啦") []) (by decide)).1 rfl (by decide)

/-- C7: cascade short-circuit — whenever the direct-API tier (run on the
possibly-redirected URL) yields a non-empty lyric payload,
`_fallback_xiaojiang_search` is never invoked (the instrumentation list
is empty) and the returned text is exactly that single provider's
message; the `elif` chain consults at most one provider, so two
providers' lyrics are never merged. -/
theorem c7_theorem (env : MusicEnv) (u f m : Str) (hf : finalUrlOf env u = .ok f)
    (hd : directTier env f = .ok (some m)) : handleMusicDirectApi env u = (m, []) :=
  handleMusic_tierSome hf hd

/-- C7 witness: a NetEase URL with a working lyric API returns the
NetEase message and never calls the fallback. -/
theorem c7_witness :
    handleMusicDirectApi envNeteaseRedirectFail (str "https://music.163.com/song?id=7") =
      (neteaseMsg (str "7") (str "啦啦啦啦啦") [], []) :=
  c7_theorem envNeteaseRedirectFail (str "https://music.163.com/song?id=7")
    (str "https://music.163.com/song?id=7")
    (neteaseMsg (str "7") (str "啦啦啦啦啦") []) (by decide) (by decide)

/-- C8: `_handle_music_direct_api` is total toward its caller — the model
is a total function returning text for every URL and every oracle
behaviour (exceptions are values of the oracles, never propagated), an
exception inside the direct tier short-circuits to the keyword-fallback
tier (on the original URL), and when every network operation fails the
result is the fixed failure message `音乐链接解析失败。`. -/
theorem c8_theorem (env : MusicEnv) (u : Str) :
    (∀ f, finalUrlOf env u = .ok f → directTier env f = .error () →
        handleMusicDirectApi env u = (fallbackXiaojiang env u, [u])) ∧
      (finalUrlOf env u = .error () →
        handleMusicDirectApi env u = (fallbackXiaojiang env u, [u])) ∧
      ((∀ x, env.headRedirect x = .error ()) → (∀ x, env.neteaseApi x = .error ()) →
        (∀ x, env.qqApi x = .error ()) → (∀ x, env.kuwoApi x = .error ()) →
        (∀ x, env.pageTitle x = .error ()) →
        handleMusicDirectApi env u = (musicFail, [u])) := by
  refine ⟨fun f hf he => handleMusic_tierError hf he,
    fun hf => handleMusic_finalError hf, ?_⟩
  intro h1 h2 h3 h4 h5
  by_cases hs : isShortLink u = true
  · rw [handleMusic_finalError (by unfold finalUrlOf; rw [if_pos hs]; exact h1 u)]
    rw [fallback_of_titleError (h5 u)]
  · have hf : finalUrlOf env u = .ok u := by unfold finalUrlOf; rw [if_neg hs]
    rcases directTier_allFail u h2 h3 h4 with hdt | hdt
    · rw [handleMusic_tierError hf hdt, fallback_of_titleError (h5 u)]
    · rw [handleMusic_tierNone hf hdt, fallback_of_titleError (h5 u)]

/-- C8 witness: with every oracle failing, a music URL yields the fixed
failure message. -/
theorem c8_witness :
    handleMusicDirectApi envMusicAllFail (str "https://y.qq.com/n/songDetail/ab12") =
      (musicFail, [str "https://y.qq.com/n/songDetail/ab12"]) :=
  (c8_theorem envMusicAllFail (str "https://y.qq.com/n/songDetail/ab12")).2.2
    (fun _ => rfl) (fun _ => rfl) (fun _ => rfl) (fun _ => rfl) (fun _ => rfl)

/-- C9: the music-site check matches domain strings as substrings of the
entire URL string, so every URL containing a music-domain entry anywhere
(path and query included) is classified as a music site and routed by
`_fetch_url_content` to the music resolver, with no screenshot. -/
theorem c9_theorem (env : FetchEnv) (u d : Str) (hd : d ∈ musicDomains)
    (hsub : pyIn d u = true) :
    isMusicSite u = true ∧
      fetchUrlContent env u = ((handleMusicDirectApi env.music u).1, none) := by
  have hm : isMusicSite u = true := List.any_eq_true.mpr ⟨d, hd, hsub⟩
  exact ⟨hm, fetch_music hm⟩

/-- C9 witness: `https://example.com/?x=b23.tv` — a music domain in the
query string only — is routed to the music resolver. -/
theorem c9_witness :
    isMusicSite (str "https://example.com/?x=b23.tv") = true ∧
      fetchUrlContent envFetchPlain (str "https://example.com/?x=b23.tv") =
        ((handleMusicDirectApi envFetchPlain.music
            (str "https://example.com/?x=b23.tv")).1, none) :=
  c9_theorem envFetchPlain (str "https://example.com/?x=b23.tv") (str "b23.tv")
    (by decide) (by decide)

/-- C10 witness: a Zhihu URL with failing renderer falls back to the
generic fetch. -/
theorem c10_witness :
    fetchUrlContent envFetchSocial (str "https://www.zhihu.com/question/1") =
      (cleanText envFetchSocial.maxLength (str "这是一段足够长的社交平台正文内容"), none) :=
  c10_theorem envFetchSocial (str "https://www.zhihu.com/question/1")
    (str "zhihu.com") (str "这是一段足够长的社交平台正文内容")
    (by decide) (by decide) (by decide) (by decide) (by decide) (by decide)
